import Mathlib

/-!
Verification of the flip-flop-protocol repository.

This file embeds the two source files of the repository:
  * `src/data/src/lib.rs` — the data-frame protocol (`Header`, `DataFrame`,
    `DataFrame::new`, `DataFrame::parse`);
  * `src/app/examples/server/main.rs` — the example server's event log
    (a capacity-bounded circular queue of `(Event, offset, time)` records,
    with a monotone offset counter and a random reset), and its catch-up
    resolver (the `maybe_reply` expression).
Machine integers (`u8`, `u16`, `u32`) are modelled as `Nat`, with masking
written exactly as in the source; byte slices are modelled as `List Nat`.
-/

namespace FlipFlop

/-- Indicates where data is sourced from, i.e. its direction
(`enum DataSource` in `src/data/src/lib.rs`). -/
inductive DataSource where
  | client : DataSource
  | server : DataSource
deriving DecidableEq

/-- There was an error parsing the data frame
(`struct ParseError {}` in `src/data/src/lib.rs`). -/
inductive ParseError where
  | parseError : ParseError
deriving DecidableEq

/-- The header fields of the data frame (`struct Header`).
`version` is a `u8` (should be 0), `server_address` and `server_port`
are `u8` addresses in `0..31`, `frame_counter` is a `u16`. -/
structure Header where
  version : Nat
  source : DataSource
  server_address : Nat
  server_port : Nat
  frame_counter : Nat
deriving DecidableEq

/-- A data frame: a packed 32-bit header word and the encrypted payload
(`struct DataFrame` in `src/data/src/lib.rs`).  Bit layout of `header`:
bits 0..=1 protocol version, bit 2 source (0 = client, 1 = server),
bits 3..=7 server address, bits 8..=12 server port, bits 13..=15 reserved,
bits 16..=31 frame counter. -/
@[ext]
structure DataFrame where
  header : Nat
  encrypted_payload : List Nat
deriving DecidableEq

/-- The size of a data frame header including the byte length for the
payload (`HEADER_SIZE` in `src/data/src/lib.rs`). -/
def HEADER_SIZE : Nat := 5

/-- The constructor `DataFrame::new` from `src/data/src/lib.rs`: packs the header fields
into the 32-bit word.  The version field is not packed (bits 0..=1 stay 0);
address and port are masked with `0x1F`, the counter with `0xFFFF`. -/
def DataFrame.new (h : Header) (encrypted_payload : List Nat) : DataFrame :=
  let source : Nat := if h.source = DataSource.client then 0 else 1
  { header :=
      (source <<< 2)
        ||| ((h.server_address &&& 0x1F) <<< 3)
        ||| ((h.server_port &&& 0x1F) <<< 8)
        ||| ((h.frame_counter &&& 0xFFFF) <<< 16),
    encrypted_payload := encrypted_payload }

/-- The inner `match` of `DataFrame::parse` on the extracted source bit:
`0 => Some(DataSource::Client), 1 => Some(DataSource::Server), _ => None`. -/
def decodeSource : Nat → Option DataSource
  | 0 => some DataSource.client
  | 1 => some DataSource.server
  | _ => none

/-- The method `DataFrame::parse` from `src/data/src/lib.rs`: extracts the fields of
the packed word and fails with `ParseError` unless the extracted version
value is 0 and the source bit decodes.  Note the version extraction uses
the mask `0x02`, exactly as the source does. -/
def DataFrame.parse (f : DataFrame) :
    Except ParseError (Header × List Nat) :=
  let version := f.header &&& 0x02
  let source := decodeSource ((f.header >>> 2) &&& 0x01)
  let server_address := (f.header >>> 3) &&& 0x1F
  let server_port := (f.header >>> 8) &&& 0x1F
  let frame_counter := (f.header >>> 16) &&& 0xFFFF
  match version, source with
  | 0, some source =>
      Except.ok
        ({ version := 0, source := source, server_address := server_address,
           server_port := server_port, frame_counter := frame_counter },
         f.encrypted_payload)
  | _, _ => Except.error ParseError.parseError

/-! ### Arithmetic characterisation of the packed word -/

/-- The packed word of `DataFrame::new`, written additively: the bit
fields are disjoint, so bitwise-or is addition. -/
theorem DataFrame.new_header_eq (h : Header) (p : List Nat) :
    (DataFrame.new h p).header =
      (if h.source = DataSource.client then 0 else 1) * 4
        + (h.server_address % 32) * 8
        + (h.server_port % 32) * 256
        + (h.frame_counter % 65536) * 65536 := by
  have ha : h.server_address &&& 0x1F = h.server_address % 32 := by
    have := Nat.and_pow_two_sub_one_eq_mod h.server_address 5
    norm_num at this; exact this
  have hp : h.server_port &&& 0x1F = h.server_port % 32 := by
    have := Nat.and_pow_two_sub_one_eq_mod h.server_port 5
    norm_num at this; exact this
  have hf : h.frame_counter &&& 0xFFFF = h.frame_counter % 65536 := by
    have := Nat.and_pow_two_sub_one_eq_mod h.frame_counter 16
    norm_num at this; exact this
  simp only [DataFrame.new]
  rw [ha, hp, hf, Nat.shiftLeft_eq, Nat.shiftLeft_eq, Nat.shiftLeft_eq,
    Nat.shiftLeft_eq]
  set s : Nat := if h.source = DataSource.client then 0 else 1 with hsdef
  have hs1 : s ≤ 1 := by rw [hsdef]; split <;> omega
  set a := h.server_address % 32 with hadef
  set q := h.server_port % 32 with hqdef
  set f := h.frame_counter % 65536 with hfdef
  have haw : a < 32 := Nat.mod_lt _ (by norm_num)
  have hqw : q < 32 := Nat.mod_lt _ (by norm_num)
  have e1 : s * 2 ^ 2 ||| a * 2 ^ 3 = 2 ^ 3 * a + s * 2 ^ 2 := by
    have hb : s * 2 ^ 2 < 2 ^ 3 := by norm_num; omega
    have h2 := Nat.mul_add_lt_is_or hb a
    rw [Nat.or_comm, Nat.mul_comm a (2 ^ 3)]
    exact h2.symm
  have e2 : (2 ^ 3 * a + s * 2 ^ 2) ||| q * 2 ^ 8
      = 2 ^ 8 * q + (2 ^ 3 * a + s * 2 ^ 2) := by
    have hb : 2 ^ 3 * a + s * 2 ^ 2 < 2 ^ 8 := by norm_num; omega
    have h2 := Nat.mul_add_lt_is_or hb q
    rw [Nat.or_comm, Nat.mul_comm q (2 ^ 8)]
    exact h2.symm
  have e3 : (2 ^ 8 * q + (2 ^ 3 * a + s * 2 ^ 2)) ||| f * 2 ^ 16
      = 2 ^ 16 * f + (2 ^ 8 * q + (2 ^ 3 * a + s * 2 ^ 2)) := by
    have hb : 2 ^ 8 * q + (2 ^ 3 * a + s * 2 ^ 2) < 2 ^ 16 := by
      norm_num; omega
    have h2 := Nat.mul_add_lt_is_or hb f
    rw [Nat.or_comm, Nat.mul_comm f (2 ^ 16)]
    exact h2.symm
  rw [e1, e2, e3]
  ring

/-- Version extraction: a word whose low two bits are clear (every packed
word built by `DataFrame::new` is a multiple of 4) has version mask 0. -/
theorem version_bits_of_packed {w s a q f : Nat}
    (hw : w = s * 4 + a * 8 + q * 256 + f * 65536) : w &&& 0x02 = 0 := by
  have h1 : w / 2 % 2 = 0 := by omega
  have h2 := Nat.and_two_pow w 1
  rw [Nat.testBit_to_div_mod] at h2
  norm_num at h2
  rw [h2, h1]
  norm_num

/-- Source-bit extraction from a packed word. -/
theorem source_bit_of_packed {w s a q f : Nat} (hs : s ≤ 1) (ha : a < 32)
    (hq : q < 32) (hw : w = s * 4 + a * 8 + q * 256 + f * 65536) :
    (w >>> 2) &&& 0x01 = s := by
  rw [Nat.shiftRight_eq_div_pow, Nat.and_one_is_mod]
  norm_num
  omega

/-- Server-address extraction from a packed word. -/
theorem address_of_packed {w s a q f : Nat} (hs : s ≤ 1) (ha : a < 32)
    (hq : q < 32) (hw : w = s * 4 + a * 8 + q * 256 + f * 65536) :
    (w >>> 3) &&& 0x1F = a := by
  have m := Nat.and_pow_two_sub_one_eq_mod (w >>> 3) 5
  norm_num at m
  rw [m, Nat.shiftRight_eq_div_pow]
  norm_num
  omega

/-- Server-port extraction from a packed word. -/
theorem port_of_packed {w s a q f : Nat} (hs : s ≤ 1) (ha : a < 32)
    (hq : q < 32) (hw : w = s * 4 + a * 8 + q * 256 + f * 65536) :
    (w >>> 8) &&& 0x1F = q := by
  have m := Nat.and_pow_two_sub_one_eq_mod (w >>> 8) 5
  norm_num at m
  rw [m, Nat.shiftRight_eq_div_pow]
  norm_num
  omega

/-- Frame-counter extraction from a packed word. -/
theorem counter_of_packed {w s a q f : Nat} (hs : s ≤ 1) (ha : a < 32)
    (hq : q < 32) (hf : f < 65536)
    (hw : w = s * 4 + a * 8 + q * 256 + f * 65536) :
    (w >>> 16) &&& 0xFFFF = f := by
  have m := Nat.and_pow_two_sub_one_eq_mod (w >>> 16) 16
  norm_num at m
  rw [m, Nat.shiftRight_eq_div_pow]
  norm_num
  omega

/-- C2: round-trip — for every `Header` with `version = 0`, in-range
`server_address` and `server_port` (0..=31), either source and any
`frame_counter` (a `u16`, hence below 65536),
`DataFrame::new(&header, payload).parse()` returns `Ok` with the original
header and payload: decode is a left inverse of encode on valid headers. -/
theorem parse_new_roundtrip (h : Header) (p : List Nat)
    (hv : h.version = 0) (ha : h.server_address ≤ 31)
    (hq : h.server_port ≤ 31) (hf : h.frame_counter < 65536) :
    (DataFrame.new h p).parse = Except.ok (h, p) := by
  have hw := DataFrame.new_header_eq h p
  set s : Nat := if h.source = DataSource.client then 0 else 1 with hsdef
  have hs1 : s ≤ 1 := by rw [hsdef]; split <;> omega
  have hamod : h.server_address % 32 = h.server_address :=
    Nat.mod_eq_of_lt (by omega)
  have hqmod : h.server_port % 32 = h.server_port :=
    Nat.mod_eq_of_lt (by omega)
  have hfmod : h.frame_counter % 65536 = h.frame_counter :=
    Nat.mod_eq_of_lt hf
  rw [hamod, hqmod, hfmod] at hw
  have hver := version_bits_of_packed hw
  have hsrc := source_bit_of_packed hs1 (by omega) (by omega) hw
  have haddr := address_of_packed hs1 (by omega) (by omega) hw
  have hport := port_of_packed hs1 (by omega) (by omega) hw
  have hctr := counter_of_packed hs1 (by omega) (by omega) hf hw
  have hpay : (DataFrame.new h p).encrypted_payload = p := rfl
  simp only [DataFrame.parse, hver, hsrc, haddr, hport, hctr, hpay]
  cases hsource : h.source with
  | client =>
      have : s = 0 := by rw [hsdef, hsource]; rfl
      rw [this]
      simp only [decodeSource]
      cases h with
      | mk ver src addr port fc =>
          simp only at hv ha hq hf hsource ⊢
          subst hv
          subst hsource
          rfl
  | server =>
      have : s = 1 := by
        rw [hsdef, hsource]; rfl
      rw [this]
      simp only [decodeSource]
      cases h with
      | mk ver src addr port fc =>
          simp only at hv ha hq hf hsource ⊢
          subst hv
          subst hsource
          rfl

/-- C2 witness: the round-trip theorem applied at the header of the
repository's own serialisation test (address 31, port 2, counter 1). -/
theorem parse_new_roundtrip_witness :
    (DataFrame.new
        { version := 0, source := DataSource.server, server_address := 31,
          server_port := 2, frame_counter := 1 } [1, 2, 3]).parse
      = Except.ok
        ({ version := 0, source := DataSource.server, server_address := 31,
           server_port := 2, frame_counter := 1 }, [1, 2, 3]) :=
  parse_new_roundtrip
    { version := 0, source := DataSource.server, server_address := 31,
      server_port := 2, frame_counter := 1 } [1, 2, 3]
    (by decide) (by decide) (by decide) (by decide)

/-- Helper: `DataFrame::new` followed by `parse` always succeeds, returning
the truncated fields (version literally 0, address and port mod 32,
counter mod 65536) and the stored payload. -/
theorem parse_new_eq (h : Header) (p : List Nat) :
    (DataFrame.new h p).parse =
      Except.ok
        ({ version := 0, source := h.source,
           server_address := h.server_address % 32,
           server_port := h.server_port % 32,
           frame_counter := h.frame_counter % 65536 }, p) := by
  have hw := DataFrame.new_header_eq h p
  set s : Nat := if h.source = DataSource.client then 0 else 1 with hsdef
  have hs1 : s ≤ 1 := by rw [hsdef]; split <;> omega
  have ha32 : h.server_address % 32 < 32 := Nat.mod_lt _ (by norm_num)
  have hq32 : h.server_port % 32 < 32 := Nat.mod_lt _ (by norm_num)
  have hf16 : h.frame_counter % 65536 < 65536 := Nat.mod_lt _ (by norm_num)
  have hver := version_bits_of_packed hw
  have hsrc := source_bit_of_packed hs1 ha32 hq32 hw
  have haddr := address_of_packed hs1 ha32 hq32 hw
  have hport := port_of_packed hs1 ha32 hq32 hw
  have hctr := counter_of_packed hs1 ha32 hq32 hf16 hw
  have hpay : (DataFrame.new h p).encrypted_payload = p := rfl
  simp only [DataFrame.parse, hver, hsrc, haddr, hport, hctr, hpay]
  cases hsource : h.source with
  | client =>
      have hs0 : s = 0 := by rw [hsdef, hsource]; rfl
      rw [hs0]
      simp only [decodeSource]
  | server =>
      have hs0 : s = 1 := by rw [hsdef, hsource]; rfl
      rw [hs0]
      simp only [decodeSource]

/-- C9: for every `Header` — including headers with nonzero `version` —
and every payload, the frame built by `DataFrame::new` parses `Ok`:
`new` never packs the version field, so the version bits of a constructed
word are always 0 and the `ParseError` branch of `parse` is unreachable
on constructed frames. -/
theorem new_parse_always_ok (h : Header) (p : List Nat) :
    (DataFrame.new h p).header &&& 0x03 = 0 ∧
      ∃ r, (DataFrame.new h p).parse = Except.ok r := by
  refine ⟨?_, ⟨_, parse_new_eq h p⟩⟩
  have hw := DataFrame.new_header_eq h p
  have m := Nat.and_pow_two_sub_one_eq_mod ((DataFrame.new h p).header) 2
  norm_num at m
  rw [m]
  set s : Nat := if h.source = DataSource.client then 0 else 1 with hsdef
  omega

/-- C5: `DataFrame::new` never fails; a header whose `server_address` or
`server_port` is out of range (≥ 32) is packed identically to the header
with those fields silently truncated to their low 5 bits (mod 32). -/
theorem new_truncates (h : Header) (p : List Nat) :
    DataFrame.new h p =
      DataFrame.new
        { h with server_address := h.server_address % 32,
                 server_port := h.server_port % 32 } p := by
  ext : 1
  · rw [DataFrame.new_header_eq, DataFrame.new_header_eq]
    simp only
    omega
  · rfl

/-- C10: whenever `DataFrame::parse` returns `Ok((header, _))`, the
returned header has `version = 0`, `server_address ≤ 31` and
`server_port ≤ 31`, for every input word. -/
theorem parse_header_in_range (f : DataFrame) (hdr : Header) (p : List Nat)
    (h : f.parse = Except.ok (hdr, p)) :
    hdr.version = 0 ∧ hdr.server_address ≤ 31 ∧ hdr.server_port ≤ 31 := by
  simp only [DataFrame.parse] at h
  split at h
  · simp only [Except.ok.injEq, Prod.mk.injEq] at h
    obtain ⟨hh, -⟩ := h
    subst hh
    refine ⟨rfl, ?_, ?_⟩
    · exact Nat.and_le_right
    · exact Nat.and_le_right
  · exact absurd h (by simp)

/-- C10 witness: the in-range theorem applied to the frame with packed
word 0 and empty payload. -/
theorem parse_header_in_range_witness :
    ({ version := 0, source := DataSource.client, server_address := 0,
       server_port := 0, frame_counter := 0 } : Header).version = 0 ∧
    ({ version := 0, source := DataSource.client, server_address := 0,
       server_port := 0, frame_counter := 0 } : Header).server_address ≤ 31 ∧
    ({ version := 0, source := DataSource.client, server_address := 0,
       server_port := 0, frame_counter := 0 } : Header).server_port ≤ 31 :=
  parse_header_in_range { header := 0, encrypted_payload := [] } _ []
    rfl

/-- C8: when `DataFrame::parse` succeeds it returns the stored
`encrypted_payload` byte sequence unchanged; `parse` is a pure read of
the frame and mutates nothing (modelled as a pure function). -/
theorem parse_preserves_payload (f : DataFrame) (hdr : Header)
    (p : List Nat) (h : f.parse = Except.ok (hdr, p)) :
    p = f.encrypted_payload := by
  simp only [DataFrame.parse] at h
  split at h
  · simp only [Except.ok.injEq, Prod.mk.injEq] at h
    exact h.2.symm
  · exact absurd h (by simp)

/-- C8 witness: the payload-preservation theorem applied to a concrete
frame holding payload `[7, 9]`. -/
theorem parse_preserves_payload_witness :
    [7, 9] = ({ header := 0, encrypted_payload := [7, 9] } :
      DataFrame).encrypted_payload :=
  parse_preserves_payload { header := 0, encrypted_payload := [7, 9] }
    { version := 0, source := DataSource.client, server_address := 0,
      server_port := 0, frame_counter := 0 } [7, 9] rfl

/-- C1 counterexample: the packed word 1 has nonzero version bits
(bits 0..=1 mask `0x03`), yet `DataFrame::parse` succeeds on it — the
source's version check masks only `0x02`, so bit 0 of the version is
never inspected. -/
theorem version_rejection_cex :
    (1 : Nat) &&& 0x03 ≠ 0 ∧
    ({ header := 1, encrypted_payload := [] } : DataFrame).parse =
      Except.ok
        ({ version := 0, source := DataSource.client, server_address := 0,
           server_port := 0, frame_counter := 0 }, []) := by
  constructor
  · decide
  · rfl

/-- C1 as amended: `DataFrame::parse` returns `Err(ParseError)` exactly
when bit 1 of the packed word (mask `0x02`) is nonzero; a word whose only
nonzero version bit is bit 0 is accepted. -/
theorem parse_error_iff_bit1 (w : Nat) (p : List Nat) :
    ({ header := w, encrypted_payload := p } : DataFrame).parse =
        Except.error ParseError.parseError
      ↔ w &&& 0x02 ≠ 0 := by
  have hle : (w >>> 2) &&& 0x01 ≤ 1 := Nat.and_le_right
  simp only [DataFrame.parse]
  rcases Nat.le_one_iff_eq_zero_or_eq_one.mp hle with h0 | h1
  · rw [h0]
    simp only [decodeSource]
    cases hv : w &&& 0x02 with
    | zero => simp [hv]
    | succ n => simp [hv]
  · rw [h1]
    simp only [decodeSource]
    cases hv : w &&& 0x02 with
    | zero => simp [hv]
    | succ n => simp [hv]

/-! ### The example server: event log and catch-up resolver -/

/-- Modelled from the spec: the opaque application event tag (the `Event`
enum lives in the example's `common/lib.rs`, which is outside the two
core source files); the server loop only ever stores `Event::SomeEvent`. -/
inductive Event where
  | someEvent : Event
deriving DecidableEq

/-- One entry of the server's event log: the `(Event, u32, Instant)`
triple pushed by the server loop in `src/app/examples/server/main.rs`.
The timestamp is modelled as a `Nat`. -/
structure EventRecord where
  event : Event
  offset : Nat
  time : Nat
deriving DecidableEq

/-- Modelled from the spec: the fixed-capacity circular buffer supplied
by the external `circular_queue` crate, as the spec describes it — a
capacity-N buffer whose `push` evicts the oldest element on overflow and
whose iteration runs newest-first.  `data` lists the retained elements
newest-first. -/
structure CircularQueue (α : Type) where
  capacity : Nat
  data : List α
deriving DecidableEq

/-- Crate operation `CircularQueue::with_capacity`: an empty queue of the given capacity. -/
def CircularQueue.withCapacity (α : Type) (n : Nat) : CircularQueue α :=
  { capacity := n, data := [] }

/-- Crate operation `CircularQueue::push`: prepend the new element and drop anything past
the capacity (evicting the oldest element when the queue is full). -/
def CircularQueue.push {α : Type} (q : CircularQueue α) (x : α) :
    CircularQueue α :=
  { capacity := q.capacity, data := (x :: q.data).take q.capacity }

/-- Crate operation `CircularQueue::clear`: drop every stored element. -/
def CircularQueue.clear {α : Type} (q : CircularQueue α) : CircularQueue α :=
  { capacity := q.capacity, data := [] }

/-- Crate operation `CircularQueue::iter`: the retained elements, newest first. -/
def CircularQueue.iter {α : Type} (q : CircularQueue α) : List α :=
  q.data

/-- Push a whole list of elements in order (first element pushed first). -/
def CircularQueue.pushAll {α : Type} (q : CircularQueue α) (xs : List α) :
    CircularQueue α :=
  xs.foldl CircularQueue.push q

/-- The catch-up resolver of the server loop (`maybe_reply` in
`src/app/examples/server/main.rs`):
`events.iter().take_while(|(_, offset, _)| *offset > last_event_offset)
 .last().or_else(|| events.iter().next())`. -/
def maybe_reply (events : CircularQueue EventRecord)
    (last_event_offset : Nat) : Option EventRecord :=
  ((events.iter.takeWhile
      fun r => decide (r.offset > last_event_offset)).getLast?).or
    events.iter.head?

/-- The state the server loop threads through its event branch: the
circular queue `events` and the counter `event_offset` (a `u32`). -/
structure ServerState where
  events : CircularQueue EventRecord
  event_offset : Nat
deriving DecidableEq

/-- The event branch of the server loop: push
`(Event::SomeEvent, event_offset, event_instant)`, then either reset the
log (`events.clear(); event_offset = 0`) or increment the offset counter.
`doReset` models the random draw `gen_range(0..10) == 0`; the increment
wraps as a `u32`. -/
def handleEvent (s : ServerState) (event_instant : Nat) (doReset : Bool) :
    ServerState :=
  let events := s.events.push
    { event := Event.someEvent, offset := s.event_offset,
      time := event_instant }
  if doReset then
    { events := events.clear, event_offset := 0 }
  else
    { events := events, event_offset := (s.event_offset + 1) % 4294967296 }

/-- C4: fallback and empty-log behaviour — when no retained record's
offset exceeds `last_event_offset`, the resolver returns the single
newest record of a nonempty log and no event for an empty log; it never
errors (its result type has no error case). -/
theorem resolver_fallback (q : CircularQueue EventRecord) (last : Nat)
    (hall : ∀ r ∈ q.iter, r.offset ≤ last) :
    maybe_reply q last = q.iter.head? ∧
    (q.iter = [] → maybe_reply q last = none) ∧
    (∀ x xs, q.iter = x :: xs → maybe_reply q last = some x) := by
  have ht : q.iter.takeWhile (fun r => decide (r.offset > last)) = [] := by
    cases hq : q.iter with
    | nil => rfl
    | cons x xs =>
        have hx := hall x (by rw [hq]; exact List.mem_cons_self x xs)
        exact List.takeWhile_cons_of_neg (by simpa using hx)
  have hmain : maybe_reply q last = q.iter.head? := by
    rw [maybe_reply, ht]
    rfl
  refine ⟨hmain, ?_, ?_⟩
  · intro h0; rw [hmain, h0]; rfl
  · intro x xs hxs; rw [hmain, hxs]; rfl

/-- C4 witness: the fallback theorem at a two-record log and the
impossibly high client offset `0xFFFFFFFF`. -/
theorem resolver_fallback_witness :
    maybe_reply
        { capacity := 10,
          data := [{ event := Event.someEvent, offset := 3, time := 30 },
                   { event := Event.someEvent, offset := 2, time := 20 }] }
        4294967295
      = ({ capacity := 10,
           data := [{ event := Event.someEvent, offset := 3, time := 30 },
                    { event := Event.someEvent, offset := 2, time := 20 }]
           } : CircularQueue EventRecord).iter.head? ∧
    (({ capacity := 10,
        data := [{ event := Event.someEvent, offset := 3, time := 30 },
                 { event := Event.someEvent, offset := 2, time := 20 }]
        } : CircularQueue EventRecord).iter = [] →
      maybe_reply
        { capacity := 10,
          data := [{ event := Event.someEvent, offset := 3, time := 30 },
                   { event := Event.someEvent, offset := 2, time := 20 }] }
        4294967295 = none) ∧
    (∀ x xs,
      ({ capacity := 10,
         data := [{ event := Event.someEvent, offset := 3, time := 30 },
                  { event := Event.someEvent, offset := 2, time := 20 }]
         } : CircularQueue EventRecord).iter = x :: xs →
      maybe_reply
        { capacity := 10,
          data := [{ event := Event.someEvent, offset := 3, time := 30 },
                   { event := Event.someEvent, offset := 2, time := 20 }] }
        4294967295 = some x) :=
  resolver_fallback
    { capacity := 10,
      data := [{ event := Event.someEvent, offset := 3, time := 30 },
               { event := Event.someEvent, offset := 2, time := 20 }] }
    4294967295 (by decide)

/-- Helper for C3, stated on the newest-first snapshot list: on a list
whose offsets strictly decrease, if some record's offset exceeds `last`
then the `take_while ... last() or_else head` expression yields a record
that exceeds `last` and has the least offset among those that do. -/
theorem resolver_list_oldest_unseen (l : List EventRecord) (last : Nat)
    (hs : l.Pairwise (fun a b => b.offset < a.offset))
    (hex : ∃ r ∈ l, last < r.offset) :
    ∃ m,
      ((l.takeWhile fun r => decide (r.offset > last)).getLast?).or l.head?
          = some m ∧
        m ∈ l ∧ last < m.offset ∧
        ∀ r ∈ l, last < r.offset → m.offset ≤ r.offset := by
  induction l with
  | nil => simp at hex
  | cons x xs ih =>
      rw [List.pairwise_cons] at hs
      obtain ⟨hx, hxs⟩ := hs
      have hxq : last < x.offset := by
        obtain ⟨r, hr, hrlt⟩ := hex
        rcases List.mem_cons.mp hr with rfl | hr'
        · exact hrlt
        · exact hrlt.trans (hx r hr')
      have hpx : (fun r : EventRecord => decide (r.offset > last)) x
          = true := by simpa using hxq
      rw [@List.takeWhile_cons_of_pos EventRecord
        (fun r => decide (r.offset > last)) x xs hpx]
      cases htw : xs.takeWhile (fun r => decide (r.offset > last)) with
      | nil =>
          refine ⟨x, by simp, List.mem_cons_self x xs, hxq, ?_⟩
          intro r hr hrlt
          rcases List.mem_cons.mp hr with rfl | hr'
          · exact Nat.le_refl _
          · exfalso
            cases hxs0 : xs with
            | nil => rw [hxs0] at hr'; simp at hr'
            | cons y ys =>
                rw [hxs0] at htw hr' hxs
                have hy : ¬ (fun r : EventRecord =>
                    decide (r.offset > last)) y = true := by
                  intro hy'
                  rw [@List.takeWhile_cons_of_pos EventRecord
                    (fun r => decide (r.offset > last)) y ys hy'] at htw
                  simp at htw
                have hyle : y.offset ≤ last := by simpa using hy
                rw [List.pairwise_cons] at hxs
                rcases List.mem_cons.mp hr' with rfl | hr''
                · omega
                · have := hxs.1 r hr''
                  omega
      | cons b l' =>
          have hb : b ∈ xs.takeWhile (fun r => decide (r.offset > last)) := by
            rw [htw]; exact List.mem_cons_self b l'
          have hbxs : b ∈ xs := (List.takeWhile_sublist _).subset hb
          have hxsex : ∃ r ∈ xs, last < r.offset :=
            ⟨b, hbxs, by simpa using List.mem_takeWhile_imp hb⟩
          obtain ⟨m, hm_eq, hm_mem, hm_lt, hm_min⟩ := ih hxs hxsex
          have hgl : (xs.takeWhile
              (fun r => decide (r.offset > last))).getLast? = some m := by
            cases hgl' : (xs.takeWhile
                (fun r => decide (r.offset > last))).getLast? with
            | none => rw [htw] at hgl'; simp at hgl'
            | some g =>
                rw [hgl'] at hm_eq
                simp [Option.or] at hm_eq
                rw [hm_eq]
          refine ⟨m, ?_, List.mem_cons_of_mem x hm_mem, hm_lt, ?_⟩
          · rw [htw] at hgl
            rw [List.getLast?_cons_cons, hgl]
            rfl
          · intro r hr hrlt
            rcases List.mem_cons.mp hr with rfl | hr'
            · exact Nat.le_of_lt (hx m hm_mem)
            · exact hm_min r hr' hrlt

/-- C3: on any event-log snapshot (newest-first, so offsets strictly
decrease) holding at least one record whose offset exceeds
`last_event_offset`, the catch-up resolver returns the qualifying record
with the least offset — the oldest event the client has not seen — and a
record whose offset equals `last_event_offset` never enters the
qualifying `take_while` prefix. -/
theorem resolver_returns_oldest_unseen (q : CircularQueue EventRecord)
    (last : Nat)
    (hs : q.iter.Pairwise (fun a b => b.offset < a.offset))
    (hex : ∃ r ∈ q.iter, last < r.offset) :
    (∃ m, maybe_reply q last = some m ∧ m ∈ q.iter ∧ last < m.offset ∧
        ∀ r ∈ q.iter, last < r.offset → m.offset ≤ r.offset) ∧
      ∀ r ∈ q.iter.takeWhile (fun r => decide (r.offset > last)),
        r.offset ≠ last := by
  constructor
  · exact resolver_list_oldest_unseen q.iter last hs hex
  · intro r hr
    have := List.mem_takeWhile_imp hr
    simp at this
    omega

/-- C3 witness: the oldest-unseen theorem at the log with offsets
`[3,2,1,0]` (newest first) and `last_event_offset = 1`, together with a
direct evaluation showing the returned record is the one with offset 2. -/
theorem resolver_returns_oldest_unseen_witness :
    maybe_reply
        { capacity := 10,
          data := [{ event := Event.someEvent, offset := 3, time := 30 },
                   { event := Event.someEvent, offset := 2, time := 20 },
                   { event := Event.someEvent, offset := 1, time := 10 },
                   { event := Event.someEvent, offset := 0, time := 0 }] } 1
      = some { event := Event.someEvent, offset := 2, time := 20 } ∧
    ((∃ m,
        maybe_reply
          { capacity := 10,
            data := [{ event := Event.someEvent, offset := 3, time := 30 },
                     { event := Event.someEvent, offset := 2, time := 20 },
                     { event := Event.someEvent, offset := 1, time := 10 },
                     { event := Event.someEvent, offset := 0, time := 0 }] }
          1 = some m ∧
        m ∈ ({ capacity := 10,
               data := [{ event := Event.someEvent, offset := 3, time := 30 },
                        { event := Event.someEvent, offset := 2, time := 20 },
                        { event := Event.someEvent, offset := 1, time := 10 },
                        { event := Event.someEvent, offset := 0, time := 0 }]
               } : CircularQueue EventRecord).iter ∧
        1 < m.offset ∧
        ∀ r ∈ ({ capacity := 10,
                 data := [{ event := Event.someEvent, offset := 3, time := 30 },
                          { event := Event.someEvent, offset := 2, time := 20 },
                          { event := Event.someEvent, offset := 1, time := 10 },
                          { event := Event.someEvent, offset := 0, time := 0 }]
                 } : CircularQueue EventRecord).iter,
          1 < r.offset → m.offset ≤ r.offset) ∧
      ∀ r ∈ ({ capacity := 10,
               data := [{ event := Event.someEvent, offset := 3, time := 30 },
                        { event := Event.someEvent, offset := 2, time := 20 },
                        { event := Event.someEvent, offset := 1, time := 10 },
                        { event := Event.someEvent, offset := 0, time := 0 }]
               } : CircularQueue EventRecord).iter.takeWhile
            (fun r => decide (r.offset > 1)),
        r.offset ≠ 1) :=
  ⟨by decide,
    resolver_returns_oldest_unseen
      { capacity := 10,
        data := [{ event := Event.someEvent, offset := 3, time := 30 },
                 { event := Event.someEvent, offset := 2, time := 20 },
                 { event := Event.someEvent, offset := 1, time := 10 },
                 { event := Event.someEvent, offset := 0, time := 0 }] } 1
      (by decide) (by decide)⟩

/-- Helper: taking `c` elements absorbs an inner `take c` on the right
summand of an append. -/
theorem take_append_take {α : Type} (u v : List α) (c : Nat) :
    (u ++ v.take c).take c = (u ++ v).take c := by
  rw [List.take_append_eq_append_take, List.take_append_eq_append_take,
    List.take_take]
  congr 2
  omega

/-- Helper: pushing a list of elements into a circular queue keeps the
capacity and retains the newest `capacity` elements, newest first. -/
theorem CircularQueue.pushAll_data {α : Type} (q : CircularQueue α)
    (xs : List α) (hlen : q.data.length ≤ q.capacity) :
    (q.pushAll xs).data = (xs.reverse ++ q.data).take q.capacity ∧
      (q.pushAll xs).capacity = q.capacity := by
  induction xs generalizing q with
  | nil =>
      simp only [pushAll, List.foldl_nil, List.reverse_nil, List.nil_append]
      exact ⟨(List.take_of_length_le hlen).symm, trivial⟩
  | cons x xs ih =>
      have hlen' : (q.push x).data.length ≤ (q.push x).capacity :=
        List.length_take_le _ _
      obtain ⟨hdata, hcap⟩ := ih (q.push x) hlen'
      constructor
      · show ((q.push x).pushAll xs).data
            = ((x :: xs).reverse ++ q.data).take q.capacity
        rw [hdata]
        show (xs.reverse ++ (x :: q.data).take q.capacity).take q.capacity
            = ((x :: xs).reverse ++ q.data).take q.capacity
        rw [take_append_take]
        congr 1
        simp [List.reverse_cons, List.append_assoc]
      · exact hcap

/-- C6: eviction — pushing `N + 1` records into an empty capacity-`N`
circular queue retains exactly the `N` most recently pushed records, in
newest-first iteration order, and the evicted oldest record (the first
pushed, when records are distinct) is gone from the iteration. -/
theorem eviction (N : Nat) (rs : List EventRecord)
    (hlen : rs.length = N + 1) :
    ((CircularQueue.withCapacity EventRecord N).pushAll rs).iter
        = (rs.drop 1).reverse ∧
      (rs.Nodup → ∀ r, rs.head? = some r →
        r ∉ ((CircularQueue.withCapacity EventRecord N).pushAll rs).iter) := by
  obtain ⟨hdata, -⟩ := CircularQueue.pushAll_data
    (CircularQueue.withCapacity EventRecord N) rs (by simp [CircularQueue.withCapacity])
  cases rs with
  | nil => simp at hlen
  | cons r0 rest =>
      have hrest : rest.length = N := by
        simpa using hlen
      have hiter : ((CircularQueue.withCapacity EventRecord N).pushAll
          (r0 :: rest)).iter = rest.reverse := by
        show ((CircularQueue.withCapacity EventRecord N).pushAll
          (r0 :: rest)).data = rest.reverse
        rw [hdata]
        show ((r0 :: rest).reverse ++ []).take N = rest.reverse
        rw [List.append_nil, List.reverse_cons,
          List.take_append_eq_append_take]
        have h1 : rest.reverse.length = N := by simpa using hrest
        rw [List.take_of_length_le (by omega), h1]
        simp
      refine ⟨by simpa using hiter, ?_⟩
      intro hnd r hr
      rw [List.head?_cons, Option.some.injEq] at hr
      subst hr
      rw [hiter, List.mem_reverse]
      exact (List.nodup_cons.mp hnd).1

/-- C6 witness: the eviction theorem at the reference capacity `N = 10`
with 11 distinct records pushed. -/
theorem eviction_witness :
    ((CircularQueue.withCapacity EventRecord 10).pushAll
          ((List.range 11).map
            fun i => { event := Event.someEvent, offset := i, time := i })).iter
        = ((((List.range 11).map
            fun i => { event := Event.someEvent, offset := i, time := i }).drop
              1).reverse) ∧
      ((((List.range 11).map
            fun i : Nat =>
              ({ event := Event.someEvent, offset := i, time := i } :
                EventRecord))).Nodup →
        ∀ r, (((List.range 11).map
            fun i : Nat =>
              ({ event := Event.someEvent, offset := i, time := i } :
                EventRecord))).head? = some r →
          r ∉ ((CircularQueue.withCapacity EventRecord 10).pushAll
              ((List.range 11).map
                fun i =>
                  { event := Event.someEvent, offset := i,
                    time := i })).iter) :=
  eviction 10
    ((List.range 11).map
      fun i => { event := Event.someEvent, offset := i, time := i })
    (by simp)

/-- C7: reset — immediately after the reset branch (`events.clear()` and
`event_offset = 0`), iterating the log yields no records and the offset
counter is 0; the next ingested event is pushed with offset 0 and heads
the iteration. -/
theorem reset_clears_log (s : ServerState) (t u : Nat)
    (hc : 0 < s.events.capacity) :
    (handleEvent s t true).events.iter = [] ∧
      (handleEvent s t true).event_offset = 0 ∧
      (handleEvent (handleEvent s t true) u false).events.iter.head?
        = some { event := Event.someEvent, offset := 0, time := u } := by
  refine ⟨rfl, rfl, ?_⟩
  cases hcap : s.events.capacity with
  | zero => omega
  | succ c =>
      simp [handleEvent, CircularQueue.push, CircularQueue.clear,
        CircularQueue.iter, hcap]

/-- A concrete server state for the C7 witness: capacity 10, one stored
record, offset counter 5. -/
def resetDemoState : ServerState :=
  { events :=
      { capacity := 10,
        data := [{ event := Event.someEvent, offset := 4, time := 40 }] },
    event_offset := 5 }

/-- C7 witness: the reset theorem at `resetDemoState`. -/
theorem reset_clears_log_witness :
    (handleEvent resetDemoState 1 true).events.iter = [] ∧
      (handleEvent resetDemoState 1 true).event_offset = 0 ∧
      (handleEvent (handleEvent resetDemoState 1 true) 2 false).events.iter.head?
        = some { event := Event.someEvent, offset := 0, time := 2 } :=
  reset_clears_log resetDemoState 1 2 (by decide)
